import Mathlib

/-!
Shallow embedding of the ignore-rule engine of `src/main.cpp`
(ProjectCompressor).  Strings are modelled as `List Char`, paths as
`List (List Char)` (one entry per path component), and the recursive
matcher — whose C++ original can recurse without bound — is embedded with
an explicit fuel parameter: `none` means the computation has not finished
within the given call budget, `some b` is the value the C++ code returns.
A monotonicity lemma shows that a `some` answer is stable under extra
fuel, so `some b` at any fuel is exactly the value of the terminating
C++ computation, and `none` at every fuel is divergence.
-/

/-- Whitespace set of `trim` in main.cpp: `" \t\r\n"` (line 35). -/
def isWs (c : Char) : Bool := c = ' ' || c = '\t' || c = '\r' || c = '\n'

/-- Left part of `trim` (line 36, `find_first_not_of`). -/
def trimLeft (s : List Char) : List Char := s.dropWhile isWs

/-- Right part of `trim` (line 38, `find_last_not_of`). -/
def trimRight (s : List Char) : List Char := (s.reverse.dropWhile isWs).reverse

/-- `trim` of main.cpp lines 34-40: strip whitespace from both ends. -/
def trim (s : List Char) : List Char := trimRight (trimLeft s)

/-- Loop of `split` in main.cpp lines 45-59: `cur` accumulates the current
token (in reverse); every delimiter closes a token, the tail after the last
delimiter is always pushed, so the result is never empty. -/
def splitAux (delimiter : Char) : List Char → List Char → List (List Char)
  | [], cur => [cur.reverse]
  | ch :: rest, cur =>
    if ch = delimiter then cur.reverse :: splitAux delimiter rest []
    else splitAux delimiter rest (ch :: cur)

/-- `split` of main.cpp lines 45-59. -/
def split (str : List Char) (delimiter : Char) : List (List Char) :=
  splitAux delimiter str []

/-- `GitIgnoreRule` of main.cpp lines 20-29. -/
structure GitIgnoreRule where
  pattern : List Char
  negate : Bool
  directoryOnly : Bool
  anchored : Bool
  tokens : List (List Char)
deriving DecidableEq

/-- The special double-star token `"**"`. -/
def doubleStar : List Char := ['*', '*']

/-- main.cpp lines 84-87: if the pattern ends with a slash the rule is
directory-only and the trailing slash is removed.  `getLast? = some '/'`
is the `!empty && back == '/'` test. -/
def stripDirSlash (p : List Char) : Bool × List Char :=
  if p.getLast? = some '/' then (true, p.dropLast) else (false, p)

/-- main.cpp lines 90-93: if the pattern starts with a slash the rule is
anchored and the leading slash is removed.  `head? = some '/'` is the
`!empty && front == '/'` test. -/
def stripAnchor (p : List Char) : Bool × List Char :=
  if p.head? = some '/' then (true, p.tail) else (false, p)

/-- main.cpp lines 83-98: the part of `parseGitIgnoreLine` after the
negate marker has been handled; `p1` is the re-trimmed pattern text. -/
def finishRule (negate : Bool) (p1 : List Char) : GitIgnoreRule :=
  { pattern := (stripAnchor (stripDirSlash p1).2).2
    negate := negate
    directoryOnly := (stripDirSlash p1).1
    anchored := (stripAnchor (stripDirSlash p1).2).1
    tokens := split ((stripAnchor (stripDirSlash p1).2).2) '/' }

/-- `parseGitIgnoreLine` of main.cpp lines 65-99: reject blank and `#`
lines; a leading `!` sets `negate`, is removed, and the text re-trimmed
(lines 76-81); then the trailing-slash and leading-slash markers are
stripped and the remainder is split on `/`. -/
def parseGitIgnoreLine (line : List Char) : Option GitIgnoreRule :=
  match trim line with
  | [] => none
  | c0 :: rest =>
    if c0 = '#' then none
    else if c0 = '!' then some (finishRule true (trim rest))
    else some (finishRule false (c0 :: rest))

/-- Loop of `matchToken`, main.cpp lines 142-171, with an explicit state
`(t, c, starPos, starBackup)` exactly as in the source and a fuel bound on
the number of iterations (the C++ loop always terminates; fuel only makes
the recursion structural).  After the component is exhausted the trailing
`while`-loop of lines 168-170 plus the final `t == token.size()` test is
exactly: every token character from `t` on is a `*`. -/
def matchTokenLoopF : Nat → List Char → List Char → Nat → Nat → Option Nat → Nat → Option Bool
  | 0, _, _, _, _, _, _ => none
  | fuel + 1, token, component, t, c, starPos, starBackup =>
    if c < component.length then
      if t < token.length ∧ (token.getD t ' ' = component.getD c ' ' ∨ token.getD t ' ' = '?') then
        matchTokenLoopF fuel token component (t + 1) (c + 1) starPos starBackup
      else if t < token.length ∧ token.getD t ' ' = '*' then
        matchTokenLoopF fuel token component (t + 1) c (some t) c
      else
        match starPos with
        | some sp => matchTokenLoopF fuel token component (sp + 1) (starBackup + 1) (some sp) (starBackup + 1)
        | none => some false
    else
      some ((token.drop t).all (fun ch => ch = '*'))

/-- `matchToken` of main.cpp lines 130-172: the `"**"` guard of lines
134-137 returns false, otherwise the two-pointer wildcard loop runs. -/
def matchTokenF (fuel : Nat) (token component : List Char) : Option Bool :=
  if token = doubleStar then some false
  else matchTokenLoopF fuel token component 0 0 none 0

/-- The sequential short-circuiting `for` loops of main.cpp lines 213-217
and 249-253: try candidates in order, stop at the first `true`; a
candidate that runs out of fuel makes the whole loop undefined. -/
def firstSomeTrue (f : Nat → Option Bool) : List Nat → Option Bool
  | [] => some false
  | s :: rest =>
    match f s with
    | none => none
    | some true => some true
    | some false => firstSomeTrue f rest

/-- `matchFromIndex` of main.cpp lines 201-242 (the recursive lambda),
with the `while` loop written as recursion on `(i, j)` and the recursive
`self(self, j + skip)` calls of line 214 — which restart the token index
at 0, since the lambda only takes `pcStart` — fueled.  The skip loop of
line 213 runs `skip = 0 .. pathComponents.size() - j` inclusive.  Lines
229-241: leftover tokens must all be `"**"`; with no leftover tokens the
match holds iff the path was fully consumed. -/
def matchFromIndexF (tokens path : List (List Char)) : Nat → Nat → Nat → Option Bool
  | 0, _, _ => none
  | fuel + 1, i, j =>
    if i < tokens.length ∧ j < path.length then
      if tokens.getD i [] = doubleStar then
        if i = tokens.length - 1 then some true
        else
          firstSomeTrue (fun skip => matchFromIndexF tokens path fuel 0 (j + skip))
            (List.range (path.length - j + 1))
      else
        match matchTokenF (fuel + 1) (tokens.getD i []) (path.getD j []) with
        | none => none
        | some true => matchFromIndexF tokens path fuel (i + 1) (j + 1)
        | some false => some false
    else if i < tokens.length then
      some (decide (∀ t ∈ tokens.drop i, t = doubleStar))
    else
      some (decide (j = path.length))

/-- `pathMatchesRule` of main.cpp lines 186-256: directory-only rules
reject files (line 190), token-less rules never match (line 196),
anchored rules match from offset 0 only (line 246), unanchored rules try
every start offset `0 .. pathComponents.size() - 1` (lines 249-253). -/
def pathMatchesRuleF (fuel : Nat) (pathComponents : List (List Char)) (isDir : Bool)
    (rule : GitIgnoreRule) : Option Bool :=
  if rule.directoryOnly && !isDir then some false
  else if rule.tokens = [] then some false
  else if rule.anchored then matchFromIndexF rule.tokens pathComponents fuel 0 0
  else
    firstSomeTrue (fun start => matchFromIndexF rule.tokens pathComponents fuel 0 start)
      (List.range pathComponents.length)

/-- Rule loop of `isIgnored`, main.cpp lines 284-290: scan every rule in
order, each match overwrites the verdict with `!rule.negate`. -/
def isIgnoredLoopF (fuel : Nat) (path : List (List Char)) (isDir : Bool) :
    List GitIgnoreRule → Bool → Option Bool
  | [], ignored => some ignored
  | r :: rs, ignored =>
    match pathMatchesRuleF fuel path isDir r with
    | none => none
    | some m => isIgnoredLoopF fuel path isDir rs (if m then !r.negate else ignored)

/-- `isIgnored` of main.cpp lines 270-292, over the already-decomposed
component list (the `fs::relative` decomposition of lines 276-282 is
filesystem plumbing outside the engine; the spec contract of section 4.4
takes the path segments directly).  The verdict starts at `false`. -/
def isIgnoredF (fuel : Nat) (rules : List GitIgnoreRule) (path : List (List Char))
    (isDir : Bool) : Option Bool :=
  isIgnoredLoopF fuel path isDir rules false

/-- Stated from the words of claim C8 only (not from the source): trim,
reject empty or `#`; negate iff the line begins with `!` (removed,
re-trimmed); directory-only iff the text then ends with `/` (removed);
anchored iff the text then begins with `/` (removed); segments are the
remainder split on `/`. -/
def parseLineClaim (line : List Char) : Option GitIgnoreRule :=
  let t := trim line
  if t = [] ∨ t.head? = some '#' then none
  else
    let afterNeg := if t.head? = some '!' then trim t.tail else t
    let afterDir := if afterNeg.getLast? = some '/' then afterNeg.dropLast else afterNeg
    let afterAnchor := if afterDir.head? = some '/' then afterDir.tail else afterDir
    some { pattern := afterAnchor
           negate := decide (t.head? = some '!')
           directoryOnly := decide (afterNeg.getLast? = some '/')
           anchored := decide (afterDir.head? = some '/')
           tokens := split afterAnchor '/' }

/-- Stated from the words of claim C6 only (not from the source):
single-component glob semantics in which `?` matches exactly one
character and `*` matches zero or more characters. -/
def globMatch : List Char → List Char → Bool
  | [], cs => cs.isEmpty
  | '*' :: ts, cs => cs.tails.any (fun suffix => globMatch ts suffix)
  | _ :: _, [] => false
  | t :: ts, c :: cs => (decide (t = c) || decide (t = '?')) && globMatch ts cs

/-! ### Auxiliary lemmas about trimming -/

theorem dropWhile_idem (p : Char → Bool) (l : List Char) :
    List.dropWhile p (List.dropWhile p l) = List.dropWhile p l := by
  induction l with
  | nil => rfl
  | cons a l ih =>
    cases h : p a
    · simp [List.dropWhile_cons, h]
    · simp [List.dropWhile_cons, h, ih]

theorem trimRight_cons (c : Char) (s : List Char) :
    trimRight (c :: s) =
      if trimRight s = [] then (if isWs c then [] else [c]) else c :: trimRight s := by
  unfold trimRight
  rw [List.reverse_cons, List.dropWhile_append]
  by_cases h : List.dropWhile isWs s.reverse = []
  · simp only [h, List.isEmpty_nil, if_true, List.reverse_nil]
    cases hc : isWs c <;> simp [List.dropWhile_cons, hc]
  · have hne : (List.dropWhile isWs s.reverse).isEmpty = false := by
      cases hd : List.dropWhile isWs s.reverse
      · exact absurd hd h
      · rfl
    have hrev : (List.dropWhile isWs s.reverse).reverse ≠ [] := by
      simpa using h
    simp [hne, hrev, List.reverse_append]

theorem trimRight_eq_nil_iff (s : List Char) : trimRight s = [] ↔ ∀ c ∈ s, isWs c := by
  unfold trimRight
  rw [List.reverse_eq_nil_iff, List.dropWhile_eq_nil_iff]
  simp [List.mem_reverse]

theorem trimRight_cons_of_neg {c : Char} (s : List Char) (hc : isWs c = false) :
    trimRight (c :: s) = c :: trimRight s := by
  rw [trimRight_cons]
  by_cases h : trimRight s = [] <;> simp [h, hc]

theorem trimLeft_trimRight_comm (s : List Char) :
    trimLeft (trimRight s) = trimRight (trimLeft s) := by
  induction s with
  | nil => rfl
  | cons c t ih =>
    cases hc : isWs c with
    | false =>
      have h1 : trimLeft (c :: t) = c :: t := by
        simp [trimLeft, List.dropWhile_cons, hc]
      rw [h1, trimRight_cons_of_neg t hc]
      simp [trimLeft, List.dropWhile_cons, hc]
    | true =>
      have h1 : trimLeft (c :: t) = trimLeft t := by
        simp [trimLeft, List.dropWhile_cons, hc]
      rw [h1, trimRight_cons]
      by_cases h : trimRight t = []
      · rw [if_pos h]
        have ht : trimLeft t = [] := by
          rw [trimLeft, List.dropWhile_eq_nil_iff]
          exact fun x hx => (trimRight_eq_nil_iff t).mp h x hx
        have ht2 : List.dropWhile isWs t = [] := ht
        simp [hc, trimRight, trimLeft, ht2]
      · rw [if_neg h]
        have h2 : trimLeft (c :: trimRight t) = trimLeft (trimRight t) := by
          simp [trimLeft, List.dropWhile_cons, hc]
        rw [h2, ih]

theorem trimRight_idem (s : List Char) : trimRight (trimRight s) = trimRight s := by
  unfold trimRight
  rw [List.reverse_reverse, dropWhile_idem]

theorem trim_trimRight (p : List Char) : trim (trimRight p) = trim p := by
  unfold trim
  rw [trimLeft_trimRight_comm, trimRight_idem]

theorem trim_bang (p : List Char) : trim ('!' :: p) = '!' :: trimRight p := by
  unfold trim
  have h1 : trimLeft ('!' :: p) = '!' :: p := by
    simp [trimLeft, List.dropWhile_cons, isWs]
  rw [h1, trimRight_cons_of_neg p (by decide)]

/-! ### Parser structure lemmas -/

theorem parse_bang (p : List Char) :
    parseGitIgnoreLine ('!' :: p) = some (finishRule true (trim p)) := by
  unfold parseGitIgnoreLine
  rw [trim_bang]
  simp [trim_trimRight]

theorem finishRule_negate (n : Bool) (p1 : List Char) : (finishRule n p1).negate = n := rfl

theorem parse_negate_shape (p : List Char) (r1 : GitIgnoreRule)
    (h : parseGitIgnoreLine p = some r1) (hneg : r1.negate = false) :
    parseGitIgnoreLine ('!' :: p) = some { r1 with negate := true } := by
  rw [parse_bang]
  cases hm : trim p with
  | nil =>
    simp only [parseGitIgnoreLine, hm] at h
    exact Option.noConfusion h
  | cons c0 rest =>
    simp only [parseGitIgnoreLine, hm] at h
    by_cases hhash : c0 = '#'
    · simp [hhash] at h
    · by_cases hbang : c0 = '!'
      · simp only [if_neg hhash, if_pos hbang] at h
        exfalso
        have hx : finishRule true (trim rest) = r1 := Option.some_inj.mp h
        rw [← hx, finishRule_negate] at hneg
        exact absurd hneg (by decide)
      · simp only [if_neg hhash, if_neg hbang] at h
        have hx : finishRule false (c0 :: rest) = r1 := Option.some_inj.mp h
        rw [← hx]
        rfl

theorem splitAux_ne_nil (d : Char) (s cur : List Char) : splitAux d s cur ≠ [] := by
  induction s generalizing cur with
  | nil => simp [splitAux]
  | cons ch rest ih =>
    unfold splitAux
    by_cases h : ch = d
    · simp [h]
    · simp only [if_neg h]
      exact ih _

theorem split_ne_nil (s : List Char) (d : Char) : split s d ≠ [] := splitAux_ne_nil d s []

/-! ### Fuel monotonicity: a defined answer is stable under extra fuel -/

theorem matchTokenLoopF_mono :
    ∀ f g : Nat, f ≤ g → ∀ (token component : List Char) (t c : Nat) (sp : Option Nat) (sb : Nat) (b : Bool),
      matchTokenLoopF f token component t c sp sb = some b →
      matchTokenLoopF g token component t c sp sb = some b := by
  intro f
  induction f with
  | zero =>
    intro g _ token component t c sp sb b h
    simp [matchTokenLoopF] at h
  | succ n ih =>
    intro g hle token component t c sp sb b h
    cases g with
    | zero => omega
    | succ m =>
      have hnm : n ≤ m := by omega
      simp only [matchTokenLoopF] at h
      simp only [matchTokenLoopF]
      by_cases h1 : c < component.length
      · rw [if_pos h1] at h ⊢
        by_cases h2 : t < token.length ∧ (token.getD t ' ' = component.getD c ' ' ∨ token.getD t ' ' = '?')
        · rw [if_pos h2] at h ⊢
          exact ih m hnm _ _ _ _ _ _ _ h
        · rw [if_neg h2] at h ⊢
          by_cases h3 : t < token.length ∧ token.getD t ' ' = '*'
          · rw [if_pos h3] at h ⊢
            exact ih m hnm _ _ _ _ _ _ _ h
          · rw [if_neg h3] at h ⊢
            cases sp with
            | none => exact h
            | some spv => exact ih m hnm _ _ _ _ _ _ _ h
      · rw [if_neg h1] at h ⊢
        exact h

theorem matchTokenF_mono (f g : Nat) (hle : f ≤ g) (token component : List Char) (b : Bool)
    (h : matchTokenF f token component = some b) : matchTokenF g token component = some b := by
  unfold matchTokenF at h ⊢
  by_cases hd : token = doubleStar
  · rw [if_pos hd] at h ⊢; exact h
  · rw [if_neg hd] at h ⊢
    exact matchTokenLoopF_mono f g hle _ _ _ _ _ _ _ h

theorem firstSomeTrue_mono (f g : Nat → Option Bool)
    (hfg : ∀ s b, f s = some b → g s = some b) :
    ∀ (l : List Nat) (b : Bool), firstSomeTrue f l = some b → firstSomeTrue g l = some b := by
  intro l
  induction l with
  | nil => intro b h; exact h
  | cons s rest ih =>
    intro b h
    rw [firstSomeTrue] at h
    rw [firstSomeTrue]
    cases hfs : f s with
    | none => rw [hfs] at h; exact Option.noConfusion h
    | some m =>
      rw [hfs] at h
      rw [hfg s m hfs]
      cases m with
      | true => exact h
      | false => exact ih b h

theorem matchFromIndexF_mono :
    ∀ f g : Nat, f ≤ g → ∀ (tokens path : List (List Char)) (i j : Nat) (b : Bool),
      matchFromIndexF tokens path f i j = some b →
      matchFromIndexF tokens path g i j = some b := by
  intro f
  induction f with
  | zero =>
    intro g _ tokens path i j b h
    simp [matchFromIndexF] at h
  | succ n ih =>
    intro g hle tokens path i j b h
    cases g with
    | zero => omega
    | succ m =>
      have hnm : n ≤ m := by omega
      simp only [matchFromIndexF] at h
      simp only [matchFromIndexF]
      by_cases h1 : i < tokens.length ∧ j < path.length
      · rw [if_pos h1] at h ⊢
        by_cases h2 : tokens.getD i [] = doubleStar
        · rw [if_pos h2] at h ⊢
          by_cases h3 : i = tokens.length - 1
          · rw [if_pos h3] at h ⊢; exact h
          · rw [if_neg h3] at h ⊢
            exact firstSomeTrue_mono _ _
              (fun s b2 hb => ih m hnm tokens path 0 (j + s) b2 hb) _ b h
        · rw [if_neg h2] at h ⊢
          cases hmt : matchTokenF (n + 1) (tokens.getD i []) (path.getD j []) with
          | none => rw [hmt] at h; exact Option.noConfusion h
          | some mt =>
            rw [hmt] at h
            rw [matchTokenF_mono (n + 1) (m + 1) (by omega) _ _ _ hmt]
            cases mt with
            | false => exact h
            | true => exact ih m hnm tokens path (i + 1) (j + 1) b h
      · rw [if_neg h1] at h ⊢
        exact h

theorem pathMatchesRuleF_mono (f g : Nat) (hle : f ≤ g) (path : List (List Char))
    (isDir : Bool) (rule : GitIgnoreRule) (b : Bool)
    (h : pathMatchesRuleF f path isDir rule = some b) :
    pathMatchesRuleF g path isDir rule = some b := by
  unfold pathMatchesRuleF at h ⊢
  by_cases h1 : rule.directoryOnly && !isDir
  · rw [if_pos h1] at h ⊢; exact h
  · rw [if_neg h1] at h ⊢
    by_cases h2 : rule.tokens = []
    · rw [if_pos h2] at h ⊢; exact h
    · rw [if_neg h2] at h ⊢
      by_cases h3 : rule.anchored
      · rw [if_pos h3] at h ⊢
        exact matchFromIndexF_mono f g hle _ _ _ _ _ h
      · rw [if_neg h3] at h ⊢
        exact firstSomeTrue_mono _ _
          (fun s b2 hb => matchFromIndexF_mono f g hle _ _ _ _ _ hb) _ b h

/-! ### Last-match-wins characterisation of the rule loop -/

theorem lastVerdict_cons (a : GitIgnoreRule) (l : List GitIgnoreRule) (acc : Bool) :
    ((a :: l).getLast?.elim acc fun r => !r.negate) =
      (l.getLast?.elim (!a.negate) fun r => !r.negate) := by
  cases l with
  | nil => rfl
  | cons b l2 =>
    rw [List.getLast?_cons_cons]
    cases hx : (b :: l2).getLast? with
    | none =>
      have : (b :: l2).getLast?.isSome := List.getLast?_isSome.mpr (by simp)
      rw [hx] at this
      exact absurd this (by simp)
    | some r => rfl

theorem isIgnoredLoopF_spec (fuel : Nat) (path : List (List Char)) (isDir : Bool) :
    ∀ (rules : List GitIgnoreRule) (acc : Bool),
      (∀ r ∈ rules, (pathMatchesRuleF fuel path isDir r).isSome) →
      isIgnoredLoopF fuel path isDir rules acc =
        some (((rules.filter fun r =>
            decide (pathMatchesRuleF fuel path isDir r = some true)).getLast?).elim acc
          fun r => !r.negate) := by
  intro rules
  induction rules with
  | nil => intro acc _; rfl
  | cons r rs ih =>
    intro acc hdef
    have hr : (pathMatchesRuleF fuel path isDir r).isSome := hdef r (by simp)
    obtain ⟨m, hm⟩ := Option.isSome_iff_exists.mp hr
    simp only [isIgnoredLoopF, hm]
    have hrest : ∀ r2 ∈ rs, (pathMatchesRuleF fuel path isDir r2).isSome :=
      fun r2 h2 => hdef r2 (by simp [h2])
    cases m with
    | true =>
      have hfil : (r :: rs).filter (fun r => decide (pathMatchesRuleF fuel path isDir r = some true))
          = r :: rs.filter (fun r => decide (pathMatchesRuleF fuel path isDir r = some true)) := by
        simp [List.filter_cons, hm]
      rw [hfil, lastVerdict_cons]
      show isIgnoredLoopF fuel path isDir rs (!r.negate) = _
      exact ih (!r.negate) hrest
    | false =>
      have hfil : (r :: rs).filter (fun r => decide (pathMatchesRuleF fuel path isDir r = some true))
          = rs.filter (fun r => decide (pathMatchesRuleF fuel path isDir r = some true)) := by
        simp [List.filter_cons, hm]
      rw [hfil]
      show isIgnoredLoopF fuel path isDir rs acc = _
      exact ih acc hrest

/-! ### Divergence of the double-star restart on a leading non-final double-star -/

theorem matchFromIndexF_starstar_div (fuel : Nat) :
    matchFromIndexF [doubleStar, doubleStar] [['x']] fuel 0 0 = none := by
  induction fuel with
  | zero => rfl
  | succ n ih =>
    have h1 : matchFromIndexF [doubleStar, doubleStar] [['x']] (n + 1) 0 0 =
        firstSomeTrue
          (fun skip => matchFromIndexF [doubleStar, doubleStar] [['x']] n 0 (0 + skip))
          [0, 1] := rfl
    rw [h1]
    simp only [firstSomeTrue, Nat.add_zero, Nat.zero_add, ih]

/-! ### Claim theorems -/

/-- C4: negation round-trip.  For every pattern `p`, running `isIgnored`
with the two-rule set `[parseLine p, parseLine ("!" ++ p)]` on any
`(pathSegments, isDirectory)` matched by the rule parsed from `p` yields
`ignored = false` (whenever the scan itself is defined, i.e. does not hit
the double-star divergence). -/
theorem negation_round_trip (p : List Char) (r1 r2 : GitIgnoreRule) (fuel : Nat)
    (path : List (List Char)) (isDir : Bool)
    (h1 : parseGitIgnoreLine p = some r1)
    (h2 : parseGitIgnoreLine ('!' :: p) = some r2)
    (hm : pathMatchesRuleF fuel path isDir r1 = some true)
    (hs : (isIgnoredF fuel [r1, r2] path isDir).isSome) :
    isIgnoredF fuel [r1, r2] path isDir = some false := by
  have hr2 : finishRule true (trim p) = r2 := by
    rw [parse_bang] at h2
    exact Option.some_inj.mp h2
  have hr2neg : r2.negate = true := by rw [← hr2]; rfl
  cases hm2 : pathMatchesRuleF fuel path isDir r2 with
  | none =>
    exfalso
    simp only [isIgnoredF, isIgnoredLoopF, hm, hm2] at hs
    simp at hs
  | some m2 =>
    simp only [isIgnoredF, isIgnoredLoopF, hm, hm2]
    cases m2 with
    | true => simp [hr2neg]
    | false =>
      cases hneg : r1.negate with
      | true => simp [hneg]
      | false =>
        exfalso
        have h2b := parse_negate_shape p r1 h1 hneg
        rw [parse_bang] at h2b
        have heq : finishRule true (trim p) = { r1 with negate := true } :=
          Option.some_inj.mp h2b
        have hmr2 : pathMatchesRuleF fuel path isDir r2 = pathMatchesRuleF fuel path isDir r1 := by
          rw [← hr2, heq]
          rfl
        rw [hmr2, hm] at hm2
        exact absurd hm2 (by simp)

/-- C2: last-match-wins.  For every rule set whose per-rule matches are
defined at the given fuel, `isIgnored` returns the negation of the last
matching rule's `negate` flag (the last element of the filtered list);
non-matching rules never affect the verdict, and with no matching rule
the verdict is `false` (the `Option.elim` default). -/
theorem isIgnored_last_match_wins (fuel : Nat) (rules : List GitIgnoreRule)
    (path : List (List Char)) (isDir : Bool)
    (hdef : ∀ r ∈ rules, (pathMatchesRuleF fuel path isDir r).isSome) :
    isIgnoredF fuel rules path isDir =
      some (((rules.filter fun r =>
          decide (pathMatchesRuleF fuel path isDir r = some true)).getLast?).elim false
        fun r => !r.negate) :=
  isIgnoredLoopF_spec fuel path isDir rules false hdef

/-- Witness for C2 at a concrete input: the rules parsed from `foo` and
`!foo`, both matching the path `foo`; the later (negated) rule wins. -/
theorem isIgnored_last_match_wins_witness :
    isIgnoredF 16 [⟨"foo".data, false, false, false, ["foo".data]⟩,
        ⟨"foo".data, true, false, false, ["foo".data]⟩] ["foo".data] false =
      some ((([(⟨"foo".data, false, false, false, ["foo".data]⟩ : GitIgnoreRule),
          ⟨"foo".data, true, false, false, ["foo".data]⟩].filter fun r =>
            decide (pathMatchesRuleF 16 ["foo".data] false r = some true)).getLast?).elim false
        fun r => !r.negate) :=
  isIgnored_last_match_wins 16 _ ["foo".data] false (by decide)

/-- Witness for C4 at a concrete input: pattern `foo`, its negation
`!foo`, path `foo`; the verdict is not-ignored. -/
theorem negation_round_trip_witness :
    isIgnoredF 16 [⟨"foo".data, false, false, false, ["foo".data]⟩,
        ⟨"foo".data, true, false, false, ["foo".data]⟩] ["foo".data] false = some false :=
  negation_round_trip "foo".data _ _ 16 ["foo".data] false (by decide) (by decide) (by decide)
    (by decide)

/-- C3 is false of the code: on the pattern `**/**` (one of the claim's
own examples) and the one-component path `x` the matcher never returns —
the skip loop re-enters an identical state at `skip = 0` because the
recursive attempt restarts at token index 0.  At every fuel the embedding
yields `none`, so no call budget suffices: the C++ recursion is infinite
(stack overflow), contradicting the claim that every input produces a
defined boolean. -/
theorem pathMatches_doubleStar_divergence (fuel : Nat) :
    (parseGitIgnoreLine "**/**".data).map
      (fun r => pathMatchesRuleF fuel [['x']] false r) = some none := by
  have hp : parseGitIgnoreLine "**/**".data =
      some ⟨"**/**".data, false, false, false, [doubleStar, doubleStar]⟩ := by decide
  rw [hp]
  show some (pathMatchesRuleF fuel [['x']] false _) = some none
  have h1 : pathMatchesRuleF fuel [['x']] false
      ⟨"**/**".data, false, false, false, [doubleStar, doubleStar]⟩ =
      firstSomeTrue (fun start => matchFromIndexF [doubleStar, doubleStar] [['x']] fuel 0 start)
        [0] := rfl
  rw [h1]
  simp only [firstSomeTrue, matchFromIndexF_starstar_div]

/-- C1 is false of the code: for the rule parsed from `a/**/b`
(unanchored, not directory-only) the matcher returns `false` not only on
`a/b/c` and `x/a/b` but also on `a/b`, `a/x/b` and `a/x/y/b`, which the
claim (and the comment above `pathMatchesRule`) say must match: the
recursive double-star attempt restarts the whole pattern at token index
0, so the matcher can never advance past a non-final `**`.  The first
conjunct evaluates all five paths at an ample fuel; the second shows the
`a/b` verdict is `false` at every fuel (it is not a fuel artifact). -/
theorem doubleStar_restart_eval :
    ((parseGitIgnoreLine "a/**/b".data).map fun r =>
        (pathMatchesRuleF 32 ["a".data, "b".data] false r,
         pathMatchesRuleF 32 ["a".data, "x".data, "b".data] false r,
         pathMatchesRuleF 32 ["a".data, "x".data, "y".data, "b".data] false r,
         pathMatchesRuleF 32 ["a".data, "b".data, "c".data] false r,
         pathMatchesRuleF 32 ["x".data, "a".data, "b".data] false r)) =
      some (some false, some false, some false, some false, some false) ∧
    ∀ fuel : Nat,
      (parseGitIgnoreLine "a/**/b".data).map
        (fun r => pathMatchesRuleF fuel ["a".data, "b".data] false r) ≠ some (some true) := by
  constructor
  · decide
  · intro fuel h
    have hp : parseGitIgnoreLine "a/**/b".data =
        some ⟨"a/**/b".data, false, false, false, ["a".data, doubleStar, "b".data]⟩ := by decide
    rw [hp] at h
    have h2 : pathMatchesRuleF fuel ["a".data, "b".data] false
        ⟨"a/**/b".data, false, false, false, ["a".data, doubleStar, "b".data]⟩ = some true :=
      Option.some_inj.mp h
    have h32 : pathMatchesRuleF 32 ["a".data, "b".data] false
        ⟨"a/**/b".data, false, false, false, ["a".data, doubleStar, "b".data]⟩ = some false := by
      decide
    rcases Nat.le_total fuel 32 with hle | hle
    · have := pathMatchesRuleF_mono fuel 32 hle _ _ _ _ h2
      rw [h32] at this
      exact absurd this (by simp)
    · have := pathMatchesRuleF_mono 32 fuel hle _ _ _ _ h32
      rw [h2] at this
      exact absurd this (by simp)

/-- C5: anchoring.  The rule parsed from `/foo` (anchored) matches the
path `foo` but not `bar/foo`; the rule parsed from `foo` (unanchored)
matches both. -/
theorem anchoring_behavior :
    ((parseGitIgnoreLine "/foo".data).map fun r =>
        (pathMatchesRuleF 8 ["foo".data] false r,
         pathMatchesRuleF 8 ["bar".data, "foo".data] false r)) =
      some (some true, some false) ∧
    ((parseGitIgnoreLine "foo".data).map fun r =>
        (pathMatchesRuleF 8 ["foo".data] false r,
         pathMatchesRuleF 8 ["bar".data, "foo".data] false r)) =
      some (some true, some true) := by
  decide

/-- Counterexample to C6: `matchToken` does not implement the claimed
single-component glob semantics.  The claimed semantics (`globMatch`,
written from the claim: `*` matches zero or more arbitrary characters)
matches pattern `*` against the component `**`, but `matchToken` returns
false on it: the equality test of line 148 precedes the `*` test of line
152, so a pattern `*` whose current component character is also `*` is
consumed as a literal, after which the match fails with no recorded
backtrack point. -/
theorem matchToken_star_literal_counterexample :
    globMatch ['*'] ['*', '*'] = true ∧ matchTokenF 8 ['*'] ['*', '*'] = some false := by
  decide

/-- C6 as amended: `?` matches exactly one character and `*` matches zero
or more characters, except that a pattern character (a `*` included)
equal to the current component character is consumed as a literal first,
so `matchToken "*" "**" = false`.  The claim's three listed values hold. -/
theorem matchToken_glob_amended :
    matchTokenF 8 "*".data "".data = some true ∧
    matchTokenF 8 "a*b".data "ab".data = some true ∧
    matchTokenF 8 "a*b".data "a".data = some false ∧
    matchTokenF 8 "?".data "z".data = some true ∧
    matchTokenF 8 "?".data "".data = some false ∧
    matchTokenF 8 "*".data "**".data = some false := by
  decide

/-- C7: full-path match, not prefix match.  If the pattern tokens are
exhausted while path components remain, the attempt at that offset fails;
if the path is exhausted while tokens remain, the attempt succeeds
exactly when every remaining token is `**`. -/
theorem matchFromIndex_exhaustion (tokens path : List (List Char)) (fuel i j : Nat) :
    (tokens.length ≤ i → j < path.length →
      matchFromIndexF tokens path (fuel + 1) i j = some false) ∧
    (path.length ≤ j → i < tokens.length →
      (matchFromIndexF tokens path (fuel + 1) i j = some true ↔
        ∀ t ∈ tokens.drop i, t = doubleStar)) := by
  constructor
  · intro hi hj
    simp only [matchFromIndexF]
    rw [if_neg (by omega : ¬(i < tokens.length ∧ j < path.length))]
    rw [if_neg (by omega : ¬i < tokens.length)]
    simp [show ¬j = path.length by omega]
  · intro hj hi
    simp only [matchFromIndexF]
    rw [if_neg (by omega : ¬(i < tokens.length ∧ j < path.length))]
    rw [if_pos hi]
    simp

/-- Witness for C7 at concrete inputs: a one-token pattern against a
longer path fails once tokens are exhausted; a lone `**` token against
the empty path succeeds because every leftover token is `**`. -/
theorem matchFromIndex_exhaustion_witness :
    matchFromIndexF [['a']] [['b'], ['c']] 4 1 1 = some false ∧
    matchFromIndexF [doubleStar] [] 4 0 0 = some true := by
  constructor
  · exact (matchFromIndex_exhaustion [['a']] [['b'], ['c']] 3 1 1).1 (by decide) (by decide)
  · exact ((matchFromIndex_exhaustion [doubleStar] [] 3 0 0).2 (by decide) (by decide)).mpr
      (by decide)

/-- Counterexample to C9: the lines `/` and `!`, whose pattern reduces to
the empty string after marker stripping, DO produce a Rule — one whose
`tokens` list is the single empty segment (`split "" = [""]`), not no
Rule at all. -/
theorem parse_empty_pattern_counterexample :
    parseGitIgnoreLine "/".data = some ⟨[], false, true, false, [[]]⟩ ∧
    parseGitIgnoreLine "!".data = some ⟨[], true, false, false, [[]]⟩ := by
  decide

/-- C9 as amended: every Rule produced by the parser has a non-empty
`tokens` sequence (`split` always yields at least one segment, possibly
the empty string); but a line whose pattern reduces to the empty string
(such as `/` or `!`) still produces a Rule — with `tokens = [""]`, an
unsatisfiable rule — rather than no Rule. -/
theorem parse_tokens_ne_nil (line : List Char) (r : GitIgnoreRule)
    (h : parseGitIgnoreLine line = some r) : r.tokens ≠ [] := by
  cases hm : trim line with
  | nil =>
    simp only [parseGitIgnoreLine, hm] at h
    exact Option.noConfusion h
  | cons c0 rest =>
    simp only [parseGitIgnoreLine, hm] at h
    by_cases hhash : c0 = '#'
    · simp [hhash] at h
    · by_cases hbang : c0 = '!'
      · simp only [if_neg hhash, if_pos hbang] at h
        rw [← Option.some_inj.mp h]
        exact split_ne_nil _ _
      · simp only [if_neg hhash, if_neg hbang] at h
        rw [← Option.some_inj.mp h]
        exact split_ne_nil _ _

/-- Witness for C9 as amended, at the line `a`. -/
theorem parse_tokens_ne_nil_witness :
    GitIgnoreRule.tokens ⟨['a'], false, false, false, [['a']]⟩ ≠ [] :=
  parse_tokens_ne_nil ['a'] ⟨['a'], false, false, false, [['a']]⟩ (by decide)

/-- C10: for every non-anchored rule, matching against the empty
component sequence is `false` whatever the pattern: the unanchored search
of lines 249-253 iterates `start` over `0 .. len - 1` and an empty path
yields no attempt at all. -/
theorem unanchored_empty_path (fuel : Nat) (isDir : Bool) (rule : GitIgnoreRule)
    (h : rule.anchored = false) :
    pathMatchesRuleF fuel [] isDir rule = some false := by
  unfold pathMatchesRuleF
  by_cases h1 : rule.directoryOnly && !isDir
  · rw [if_pos h1]
  · rw [if_neg h1]
    by_cases h2 : rule.tokens = []
    · rw [if_pos h2]
    · rw [if_neg h2, if_neg (by simp [h])]
      rfl

/-- Witness for C10 at a concrete non-anchored rule. -/
theorem unanchored_empty_path_witness :
    pathMatchesRuleF 3 [] false ⟨['a'], false, false, false, [['a']]⟩ = some false :=
  unanchored_empty_path 3 false ⟨['a'], false, false, false, [['a']]⟩ rfl

theorem finishRule_claim_fields (n : Bool) (x : List Char) :
    finishRule n x =
      { pattern := (if (if x.getLast? = some '/' then x.dropLast else x).head? = some '/'
            then (if x.getLast? = some '/' then x.dropLast else x).tail
            else if x.getLast? = some '/' then x.dropLast else x)
        negate := n
        directoryOnly := decide (x.getLast? = some '/')
        anchored := decide ((if x.getLast? = some '/' then x.dropLast else x).head? = some '/')
        tokens := split (if (if x.getLast? = some '/' then x.dropLast else x).head? = some '/'
            then (if x.getLast? = some '/' then x.dropLast else x).tail
            else if x.getLast? = some '/' then x.dropLast else x) '/' } := by
  unfold finishRule stripDirSlash stripAnchor
  by_cases h1 : x.getLast? = some '/'
  · by_cases h2 : x.dropLast.head? = some '/' <;> simp [h1, h2]
  · by_cases h2 : x.head? = some '/' <;> simp [h1, h2]

/-- C8: parser contract.  `parseGitIgnoreLine` agrees with
`parseLineClaim`, the function stated from the claim's own words, on
every input line: nothing is returned exactly for blank and `#` lines,
and otherwise the negate / directory-only / anchored markers are consumed
in that order and the remainder split on `/`. -/
theorem parseGitIgnoreLine_eq_claim (line : List Char) :
    parseGitIgnoreLine line = parseLineClaim line := by
  cases hm : trim line with
  | nil => simp [parseGitIgnoreLine, parseLineClaim, hm]
  | cons c0 rest =>
    simp only [parseGitIgnoreLine, parseLineClaim, hm]
    by_cases hhash : c0 = '#'
    · simp [hhash]
    · by_cases hbang : c0 = '!'
      · subst hbang
        rw [finishRule_claim_fields]
        simp [hhash]
      · simp only [hhash, hbang]
        simp [hhash, hbang]
        exact finishRule_claim_fields false (c0 :: rest)
